import Mathlib

/-!
# CPP11 — platform clock bridge (`windows/chrono_impl.cpp`) and `nullptr.h`

A shallow embedding of the two acquisition routines `system_clock::now` and
`high_resolution_clock::now` and of the `nullptr_implementation` polyfill,
followed by the properties established about them.

Conventions.
* Machine integers are mathematical integers; a 32-bit store reduces modulo `2^32`,
  and a signed 64-bit operation whose mathematical result leaves `[-2^63, 2^63 - 1]`
  has no defined result (`none`).
* The operating system is an environment record `OS` holding, for every query the
  routines make, the success flag and the contents left in the output buffer.
* `double` is IEEE-754 binary64 with round-to-nearest, ties-to-even; finite values are
  rationals, every operation rounds its exact result to 53 significant bits.
-/

namespace CPP11

/-! ## Machine integers -/

/-- Range of the signed 64-bit type `LONGLONG`. -/
def inInt64 (x : Int) : Prop := -(2 ^ 63) ≤ x ∧ x ≤ 2 ^ 63 - 1

instance (x : Int) : Decidable (inInt64 x) := by
  unfold inInt64; infer_instance

/-- Two's-complement reduction of an integer to the signed 64-bit range. -/
def wrapInt64 (x : Int) : Int := (x + 2 ^ 63) % 2 ^ 64 - 2 ^ 63

/-- Result of a signed 64-bit operation whose mathematical value is `x`:
defined only when `x` is representable. -/
def checked64 (x : Int) : Option Int := if inInt64 x then some x else none

/-- Store into a `DWORD` (unsigned 32-bit) object. -/
def toDWORD (n : Nat) : Nat := n % 2 ^ 32

/-- Conversion of a `DWORD` value to `LONG` (signed 32-bit), keeping the bit pattern. -/
def toLONG (n : Nat) : Int :=
  if n % 2 ^ 32 < 2 ^ 31 then (n % 2 ^ 32 : Nat) else ((n % 2 ^ 32 : Nat) : Int) - 2 ^ 32

/-! ## Windows types used by the routines -/

/-- The `FILETIME` structure: two `DWORD` halves of a count of 100-ns intervals
since 1 January 1601 (UTC). -/
structure FILETIME where
  dwLowDateTime : Nat
  dwHighDateTime : Nat
deriving DecidableEq, Repr

/-- The `SYSTEMTIME` structure (broken-down UTC time). -/
structure SYSTEMTIME where
  wYear : Nat
  wMonth : Nat
  wDayOfWeek : Nat
  wDay : Nat
  wHour : Nat
  wMinute : Nat
  wSecond : Nat
  wMilliseconds : Nat
deriving DecidableEq, Repr

/-- The `LARGE_INTEGER` union, seen through its `LowPart`/`HighPart` members. -/
structure LARGE_INTEGER where
  LowPart : Nat
  HighPart : Int
deriving DecidableEq, Repr

/-- The `QuadPart` member of the union: the 64-bit signed value whose low 32 bits
are `LowPart` and whose high 32 bits are `HighPart`. -/
def LARGE_INTEGER.QuadPart (li : LARGE_INTEGER) : Int :=
  li.HighPart * 2 ^ 32 + (li.LowPart : Int)

/-- The `LARGE_INTEGER` whose `QuadPart` is the signed 64-bit value `q`. -/
def LARGE_INTEGER.ofQuad (q : Int) : LARGE_INTEGER :=
  { LowPart := (q % 2 ^ 32).toNat, HighPart := q / 2 ^ 32 }

/-- The operating-system queries made by the two routines: for each call the
`BOOL` it returns and the contents of its output buffer after the call. -/
structure OS where
  GetSystemTime : SYSTEMTIME
  SystemTimeToFileTime : SYSTEMTIME → Bool × FILETIME
  QueryPerformanceFrequency : Bool × LARGE_INTEGER
  QueryPerformanceCounter : Bool × LARGE_INTEGER

/-! ## The time types of `../chrono` -/

/-- Modelled from the spec: the `duration` type of the header `../chrono`, which is not
among the sources: a signed 64-bit tick count at a fixed resolution of `den` ticks per
second. -/
structure duration (den : Nat) where
  count : Int
deriving DecidableEq, Repr

/-- Modelled from the spec: `milliseconds` of `../chrono`, the resolution of the
wall-clock source and the type of `system_clock::duration`. -/
abbrev milliseconds := duration 1000

/-- Modelled from the spec: `nanoseconds` of `../chrono`, the resolution of the
monotonic source and the type of `high_resolution_clock::duration`. -/
abbrev nanoseconds := duration 1000000000

/-- Modelled from the spec: the clock-identity tag of a time point. -/
inductive ClockTag where
  | system_clock
  | high_resolution_clock
deriving DecidableEq, Repr

/-- Modelled from the spec: the `time_point` type of `../chrono`: a clock-identity tag
and the duration elapsed since that clock's epoch. -/
structure time_point (clock : ClockTag) (den : Nat) where
  time_since_epoch : duration den
deriving DecidableEq, Repr

/-- Modelled from the spec: `time_point_cast` of `../chrono` to the resolution the
time point already has, which leaves the tick count unchanged. -/
def time_point_cast {clock : ClockTag} {den : Nat} (t : time_point clock den) :
    time_point clock den := t

/-- The tick count of a time point. -/
def time_point.ticks {clock : ClockTag} {den : Nat} (t : time_point clock den) : Int :=
  t.time_since_epoch.count

/-! ## `system_clock::now` -/

/-- The constant `(LONGLONG)11644473600000` subtracted by `system_clock::now`. -/
def EPOCH_OFFSET_MS : Int := 11644473600000

/-- The two stores `count.LowPart = ft.dwLowDateTime; count.HighPart = ft.dwHighDateTime`. -/
def FILETIME.toLargeInteger (ft : FILETIME) : LARGE_INTEGER :=
  { LowPart := toDWORD ft.dwLowDateTime, HighPart := toLONG ft.dwHighDateTime }

/-- The expression `(count.QuadPart / 10000U) - (LONGLONG)11644473600000`: a signed
64-bit truncating division followed by a signed 64-bit subtraction. -/
def system_clock.ticksOfQuad (quad : Int) : Option Int :=
  (checked64 (Int.tdiv quad 10000)).bind fun q => checked64 (q - EPOCH_OFFSET_MS)

/-- The routine `system_clock::now()`. -/
def system_clock.now (os : OS) : Option (time_point ClockTag.system_clock 1000) :=
  let st := os.GetSystemTime
  let r := os.SystemTimeToFileTime st
  if !r.1 then
    some (time_point_cast ⟨(⟨0⟩ : milliseconds)⟩)
  else
    let count := r.2.toLargeInteger
    (system_clock.ticksOfQuad count.QuadPart).map fun ms =>
      time_point_cast ⟨(⟨ms⟩ : milliseconds)⟩

/-! ## IEEE-754 binary64 arithmetic -/

/-- Rounding of a rational to the nearest integer, ties to the even neighbour. -/
def roundHalfEven (w : ℚ) : ℤ :=
  if Int.fract w < 1 / 2 then ⌊w⌋
  else if 1 / 2 < Int.fract w then ⌊w⌋ + 1
  else if ⌊w⌋ % 2 = 0 then ⌊w⌋ else ⌊w⌋ + 1

/-- The binary exponent of a nonzero rational: `2 ^ binade v ≤ |v| < 2 ^ (binade v + 1)`. -/
def binade (v : ℚ) : ℤ := Int.log 2 |v|

/-- Rounding of an exact result to binary64: the nearest rational with a 53-bit
significand, ties to even. The exponent range of binary64 is not represented: with
64-bit integer operands every value met by `high_resolution_clock::now` has a magnitude
in `[2 ^ (-34), 2 ^ 93]`, far inside the normal range. -/
def roundDouble (v : ℚ) : ℚ :=
  if v = 0 then 0
  else (roundHalfEven (v / 2 ^ (binade v - 52)) : ℚ) * 2 ^ (binade v - 52)

/-- A value of type `double`. Zero carries no sign: the routine divides only by a
converted integer, which is never a negative zero. -/
inductive Double where
  | finite (v : ℚ)
  | inf (negative : Bool)
  | nan
deriving DecidableEq, Repr

/-- The conversion `(double)n` of an integer. -/
def Double.ofInt (n : Int) : Double := Double.finite (roundDouble n)

/-- The product `x * y` of two doubles. -/
def Double.mul : Double → Double → Double
  | Double.finite a, Double.finite b => Double.finite (roundDouble (a * b))
  | Double.finite a, Double.inf s => if a = 0 then Double.nan else Double.inf (s != decide (a < 0))
  | Double.inf s, Double.finite b => if b = 0 then Double.nan else Double.inf (s != decide (b < 0))
  | Double.inf s, Double.inf t => Double.inf (s != t)
  | _, _ => Double.nan

/-- The quotient `x / y` of two doubles. -/
def Double.div : Double → Double → Double
  | Double.finite a, Double.finite b =>
    if b = 0 then (if a = 0 then Double.nan else Double.inf (decide (a < 0)))
    else Double.finite (roundDouble (a / b))
  | Double.finite _, Double.inf _ => Double.finite 0
  | Double.inf s, Double.finite b => Double.inf (s != decide (b < 0))
  | _, _ => Double.nan

/-- Truncation of a rational toward zero. -/
def truncToInt (v : ℚ) : ℤ := if 0 ≤ v then ⌊v⌋ else ⌈v⌉

/-- The conversion `static_cast<LONGLONG>(x)` of a double: truncation toward zero,
defined only when the truncated value is representable in 64 signed bits. -/
def Double.toInt64 : Double → Option Int
  | Double.finite v => checked64 (truncToInt v)
  | _ => none

/-! ## `high_resolution_clock::now` -/

/-- The expression
`static_cast<LONGLONG>((double)count.QuadPart * (double)1000000000 / (double)frequency.QuadPart)`. -/
def high_resolution_clock.ticksOfCount (count frequency : Int) : Option Int :=
  Double.toInt64
    (Double.div (Double.mul (Double.ofInt count) (Double.ofInt 1000000000))
      (Double.ofInt frequency))

/-- The routine `high_resolution_clock::now()`. -/
def high_resolution_clock.now (os : OS) :
    Option (time_point ClockTag.high_resolution_clock 1000000000) :=
  let rf := os.QueryPerformanceFrequency
  if !rf.1 then
    some (time_point_cast ⟨(⟨0⟩ : nanoseconds)⟩)
  else
    let rc := os.QueryPerformanceCounter
    if !rc.1 then
      some (time_point_cast ⟨(⟨0⟩ : nanoseconds)⟩)
    else
      (high_resolution_clock.ticksOfCount rc.2.QuadPart rf.2.QuadPart).map fun ns =>
        time_point_cast ⟨(⟨ns⟩ : nanoseconds)⟩

/-! ## Proleptic Gregorian day count (reference for the epoch offset) -/

/-- Leap-year rule of the proleptic Gregorian calendar. -/
def isLeapYear (y : Nat) : Bool := (y % 4 == 0 && y % 100 != 0) || y % 400 == 0

/-- Number of days of year `y`. -/
def daysInYear (y : Nat) : Nat := if isLeapYear y then 366 else 365

/-- Number of days from 1 January of year `y0` to 1 January of year `y0 + n`. -/
def daysFromYear (y0 : Nat) : Nat → Nat
  | 0 => 0
  | n + 1 => daysFromYear y0 n + daysInYear (y0 + n)

/-- Days from 1 January 1601 to 1 January 1970. -/
def daysFrom1601To1970 : Nat := daysFromYear 1601 (1970 - 1601)

/-- An environment in which the calendar conversion reports `ok` and leaves `ft`. -/
def OS.ofFileTime (ok : Bool) (ft : FILETIME) : OS :=
  { GetSystemTime := ⟨0, 0, 0, 0, 0, 0, 0, 0⟩
    SystemTimeToFileTime := fun _ => (ok, ft)
    QueryPerformanceFrequency := (false, ⟨0, 0⟩)
    QueryPerformanceCounter := (false, ⟨0, 0⟩) }

/-- The `FILETIME` holding the 64-bit count `n`. -/
def FILETIME.ofNat (n : Nat) : FILETIME :=
  { dwLowDateTime := n % 2 ^ 32, dwHighDateTime := n / 2 ^ 32 % 2 ^ 32 }

/-- The 64-bit count of 100-ns intervals held by a `FILETIME` (low half plus `2^32` times
high half). -/
def FILETIME.value (ft : FILETIME) : Nat :=
  toDWORD ft.dwHighDateTime * 2 ^ 32 + toDWORD ft.dwLowDateTime

/-- An environment in which the two performance-counter queries report `okF` and `okC`
and leave `frequency` and `count` in their buffers. -/
def OS.ofCounter (okF okC : Bool) (count frequency : Int) : OS :=
  { GetSystemTime := ⟨0, 0, 0, 0, 0, 0, 0, 0⟩
    SystemTimeToFileTime := fun _ => (false, ⟨0, 0⟩)
    QueryPerformanceFrequency := (okF, LARGE_INTEGER.ofQuad frequency)
    QueryPerformanceCounter := (okC, LARGE_INTEGER.ofQuad count) }

/-! ## Reference conversions as the specification words them -/

/-- Wall-clock conversion in the order of the specification: first re-anchor the native
count to 1 January 1970, then rescale to milliseconds by truncating division. -/
def reanchorThenRescale (ft : Int) : Int := Int.tdiv (ft - 116444736000000000) 10000

/-- Exact reference for the counter conversion: `floor (c * 1000000000 / f)`. -/
def exactNanoseconds (c f : Int) : Int := c * 1000000000 / f

/-- The value of the double expression
`(double)count * (double)1000000000 / (double)frequency` for a nonzero frequency. -/
def doubleQuotient (c f : Int) : ℚ :=
  roundDouble (roundDouble (roundDouble c * roundDouble ((1000000000 : Int) : ℚ))
    / roundDouble f)

/-! ## `nullptr.h` -/

/-- A value of a pointer type `T*` or `const T*`: the null pointer or the address of
an object. -/
inductive Pointer (T : Type) where
  | null
  | object (address : Nat)

/-- The built-in comparison `a == b` of two pointers of the same type. -/
def Pointer.builtin_eq {T : Type} : Pointer T → Pointer T → Bool
  | Pointer.null, Pointer.null => true
  | Pointer.object a, Pointer.object b => a == b
  | _, _ => false

/-- The built-in comparison `a != b` of two pointers of the same type. -/
def Pointer.builtin_ne {T : Type} (a b : Pointer T) : Bool := !Pointer.builtin_eq a b

/-- A value of a pointer-to-member type `T C::*`. -/
inductive MemberPointer (C T : Type) where
  | null
  | member (index : Nat)

/-- The class `nullptr_implementation`, which has no data members. -/
structure nullptr_implementation where
deriving DecidableEq, Repr

/-- The conversion `operator T*() const`, returning `static_cast<T*>(0U)`. -/
def nullptr_implementation.toPointer (_self : nullptr_implementation) (T : Type) :
    Pointer T := Pointer.null

/-- The conversion `operator T C::*() const`, returning `static_cast<T C::*>(0U)`. -/
def nullptr_implementation.toMemberPointer (_self : nullptr_implementation) (C T : Type) :
    MemberPointer C T := MemberPointer.null

/-- The overload `operator==(const T* p, const nullptr_implementation&)`. -/
def operator_eq_const_ptr_null {T : Type} (p : Pointer T) (_n : nullptr_implementation) :
    Bool := Pointer.builtin_eq Pointer.null p

/-- The overload `operator!=(const T* p, const nullptr_implementation&)`. -/
def operator_ne_const_ptr_null {T : Type} (p : Pointer T) (_n : nullptr_implementation) :
    Bool := Pointer.builtin_ne Pointer.null p

/-- The overload `operator==(T* p, const nullptr_implementation&)`. -/
def operator_eq_ptr_null {T : Type} (p : Pointer T) (_n : nullptr_implementation) :
    Bool := Pointer.builtin_eq Pointer.null p

/-- The overload `operator!=(T* p, const nullptr_implementation&)`. -/
def operator_ne_ptr_null {T : Type} (p : Pointer T) (_n : nullptr_implementation) :
    Bool := Pointer.builtin_ne Pointer.null p

/-- The overload `operator==(const nullptr_implementation&, const T* p)`. -/
def operator_eq_null_const_ptr {T : Type} (_n : nullptr_implementation) (p : Pointer T) :
    Bool := Pointer.builtin_eq Pointer.null p

/-- The overload `operator!=(const nullptr_implementation&, const T* p)`. -/
def operator_ne_null_const_ptr {T : Type} (_n : nullptr_implementation) (p : Pointer T) :
    Bool := Pointer.builtin_ne Pointer.null p

/-- The overload `operator==(const nullptr_implementation&, T* p)`. -/
def operator_eq_null_ptr {T : Type} (_n : nullptr_implementation) (p : Pointer T) :
    Bool := Pointer.builtin_eq Pointer.null p

/-- The overload `operator!=(const nullptr_implementation&, T* p)`. -/
def operator_ne_null_ptr {T : Type} (_n : nullptr_implementation) (p : Pointer T) :
    Bool := Pointer.builtin_ne Pointer.null p

/-- The object `const nullptr_implementation nullptr = { };`. -/
def nullptr : nullptr_implementation := {}

/-! ## Rounding to the nearest integer -/

theorem floor_le_roundHalfEven (w : ℚ) : ⌊w⌋ ≤ roundHalfEven w := by
  unfold roundHalfEven
  split_ifs <;> omega

theorem roundHalfEven_le_floor_add_one (w : ℚ) : roundHalfEven w ≤ ⌊w⌋ + 1 := by
  unfold roundHalfEven
  split_ifs <;> omega

theorem roundHalfEven_le_add_half (w : ℚ) : (roundHalfEven w : ℚ) ≤ w + 1 / 2 := by
  have h1 := Int.floor_le w
  have h2 : Int.fract w = w - ⌊w⌋ := rfl
  unfold roundHalfEven
  split_ifs <;> push_cast <;> linarith

theorem sub_half_le_roundHalfEven (w : ℚ) : w - 1 / 2 ≤ (roundHalfEven w : ℚ) := by
  have h1 := Int.lt_floor_add_one w
  have h2 : Int.fract w = w - ⌊w⌋ := rfl
  unfold roundHalfEven
  split_ifs <;> push_cast <;> linarith

theorem roundHalfEven_intCast (n : ℤ) : roundHalfEven (n : ℚ) = n := by
  unfold roundHalfEven
  simp

theorem roundHalfEven_mono {a b : ℚ} (h : a ≤ b) : roundHalfEven a ≤ roundHalfEven b := by
  rcases lt_or_eq_of_le (Int.floor_mono h) with hlt | heq
  · have h1 := roundHalfEven_le_floor_add_one a
    have h2 := floor_le_roundHalfEven b
    omega
  · have hf : Int.fract a ≤ Int.fract b := by
      have ha : Int.fract a = a - ⌊a⌋ := rfl
      have hb : Int.fract b = b - ⌊b⌋ := rfl
      rw [ha, hb, heq]; linarith
    unfold roundHalfEven
    rw [heq]
    split_ifs <;> first | omega | (exfalso; linarith)

theorem roundHalfEven_eq_of_abs_sub_lt {w : ℚ} {n : ℤ} (h : |w - n| < 1 / 2) :
    roundHalfEven w = n := by
  have h1 := roundHalfEven_le_add_half w
  have h2 := sub_half_le_roundHalfEven w
  rw [abs_lt] at h
  have h3 : ((roundHalfEven w : ℤ) : ℚ) < ((n + 1 : ℤ) : ℚ) := by push_cast; linarith
  have h4 : ((n - 1 : ℤ) : ℚ) < ((roundHalfEven w : ℤ) : ℚ) := by push_cast; linarith
  have h5 := Int.cast_lt.mp h3
  have h6 := Int.cast_lt.mp h4
  omega

theorem intCast_le_roundHalfEven {w : ℚ} {n : ℤ} (h : (n : ℚ) ≤ w) : n ≤ roundHalfEven w := by
  have := roundHalfEven_mono h
  rwa [roundHalfEven_intCast] at this

theorem roundHalfEven_le_intCast {w : ℚ} {n : ℤ} (h : w ≤ (n : ℚ)) : roundHalfEven w ≤ n := by
  have := roundHalfEven_mono h
  rwa [roundHalfEven_intCast] at this

theorem roundHalfEven_lt_of_lt_sub_half {w : ℚ} {n : ℤ} (h : w < (n : ℚ) - 1 / 2) :
    roundHalfEven w < n := by
  have h1 := roundHalfEven_le_add_half w
  have h3 : ((roundHalfEven w : ℤ) : ℚ) < ((n : ℤ) : ℚ) := by linarith
  exact Int.cast_lt.mp h3

theorem roundHalfEven_neg (w : ℚ) : roundHalfEven (-w) = -roundHalfEven w := by
  by_cases hr : Int.fract w = 0
  · obtain ⟨n, hn⟩ : ∃ n : ℤ, w = n := ⟨⌊w⌋, by
      have : Int.fract w = w - ⌊w⌋ := rfl
      linarith⟩
    subst hn
    rw [← Int.cast_neg, roundHalfEven_intCast, roundHalfEven_intCast]
  · have hfr : Int.fract w = w - ⌊w⌋ := rfl
    have hpos : 0 < Int.fract w := lt_of_le_of_ne (Int.fract_nonneg w) (Ne.symm hr)
    have hlt := Int.fract_lt_one w
    have hfloor : ⌊-w⌋ = -⌊w⌋ - 1 := by
      rw [Int.floor_eq_iff]
      push_cast
      constructor <;> linarith
    have hfn : Int.fract (-w) = 1 - Int.fract w := by
      have : Int.fract (-w) = -w - ⌊-w⌋ := rfl
      rw [this, hfloor, hfr]; push_cast; ring
    unfold roundHalfEven
    rw [hfn, hfloor]
    split_ifs <;> first | omega | (exfalso; linarith)

/-! ## Rounding to binary64 -/

theorem binade_spec {v : ℚ} (hv : v ≠ 0) :
    (2 : ℚ) ^ binade v ≤ |v| ∧ |v| < (2 : ℚ) ^ (binade v + 1) := by
  have hpos : (0 : ℚ) < |v| := abs_pos.mpr hv
  have h1 := Int.zpow_log_le_self (b := 2) (by norm_num) hpos
  have h2 := Int.lt_zpow_succ_log_self (b := 2) (by norm_num) |v|
  simp only [Nat.cast_ofNat] at h1 h2
  exact ⟨h1, h2⟩

theorem binade_eq {v : ℚ} {e : ℤ} (h1 : (2 : ℚ) ^ e ≤ |v|) (h2 : |v| < (2 : ℚ) ^ (e + 1)) :
    binade v = e := by
  have hpos : (0 : ℚ) < |v| := lt_of_lt_of_le (by positivity) h1
  have a1 := (Int.zpow_le_iff_le_log (b := 2) (by norm_num) hpos (x := e)).mp
    (by simpa using h1)
  have a2 := (Int.lt_zpow_iff_log_lt (b := 2) (by norm_num) hpos (x := e + 1)).mp
    (by simpa using h2)
  unfold binade
  omega

theorem binade_mono {a b : ℚ} (ha : 0 < a) (h : a ≤ b) : binade a ≤ binade b := by
  unfold binade
  rw [abs_of_pos ha, abs_of_pos (lt_of_lt_of_le ha h)]
  exact Int.log_mono_right ha h

theorem roundDouble_zero : roundDouble 0 = 0 := by
  simp [roundDouble]

theorem roundDouble_of_binade {v : ℚ} {e : ℤ} (h1 : (2 : ℚ) ^ e ≤ |v|)
    (h2 : |v| < (2 : ℚ) ^ (e + 1)) :
    roundDouble v = (roundHalfEven (v / 2 ^ (e - 52)) : ℚ) * 2 ^ (e - 52) := by
  have hpos : (0 : ℚ) < |v| := lt_of_lt_of_le (by positivity) h1
  have hv : v ≠ 0 := abs_pos.mp hpos
  unfold roundDouble
  rw [if_neg hv, binade_eq h1 h2]

theorem roundDouble_repr (m k : ℤ) (hm : |m| < 2 ^ 53) :
    roundDouble ((m : ℚ) * 2 ^ k) = (m : ℚ) * 2 ^ k := by
  by_cases hm0 : m = 0
  · subst hm0; simp [roundDouble_zero]
  have h2k : (0 : ℚ) < 2 ^ k := by positivity
  have hv : (m : ℚ) * 2 ^ k ≠ 0 := mul_ne_zero (by exact_mod_cast hm0) (ne_of_gt h2k)
  obtain ⟨hlo, -⟩ := binade_spec hv
  have habs : |(m : ℚ) * 2 ^ k| < 2 ^ (53 + k) := by
    rw [abs_mul, abs_of_pos h2k, zpow_add₀ (by norm_num : (2 : ℚ) ≠ 0)]
    have h53 : ((|m| : ℤ) : ℚ) < ((2 ^ 53 : ℤ) : ℚ) := Int.cast_lt.mpr hm
    rw [Int.cast_abs] at h53
    have : |(m : ℚ)| < 2 ^ (53 : ℤ) := by
      norm_num at h53 ⊢
      exact h53
    exact mul_lt_mul_of_pos_right this h2k
  unfold roundDouble
  rw [if_neg hv]
  generalize binade ((m : ℚ) * 2 ^ k) = E at hlo ⊢
  have hlt : (2 : ℚ) ^ E < 2 ^ (53 + k) := lt_of_le_of_lt hlo habs
  have hEk : E < 53 + k := (zpow_lt_zpow_iff_right₀ (by norm_num : (1 : ℚ) < 2)).mp hlt
  obtain ⟨d, hd⟩ : ∃ d : ℕ, k = (E - 52) + d := ⟨(k - (E - 52)).toNat, by omega⟩
  have hpos : (0 : ℚ) < 2 ^ (E - 52) := by positivity
  have hk : (2 : ℚ) ^ k = 2 ^ (E - 52) * 2 ^ d := by
    rw [hd, zpow_add₀ (by norm_num : (2 : ℚ) ≠ 0), zpow_natCast]
  have hw : (m : ℚ) * 2 ^ k / 2 ^ (E - 52) = ((m * 2 ^ d : ℤ) : ℚ) := by
    rw [hk]
    push_cast
    field_simp
    ring
  rw [hw, roundHalfEven_intCast, hk]
  push_cast
  ring

theorem roundDouble_intCast (n : ℤ) (h : |n| ≤ 2 ^ 53) : roundDouble (n : ℚ) = n := by
  rcases lt_or_eq_of_le h with hlt | heq
  · simpa using roundDouble_repr n 0 hlt
  · rcases abs_eq (by norm_num : (0 : ℤ) ≤ 2 ^ 53) |>.mp heq with h1 | h1
    · have := roundDouble_repr 1 53 (by norm_num)
      subst h1
      norm_num at this ⊢
      exact this
    · have := roundDouble_repr (-1) 53 (by norm_num)
      subst h1
      norm_num at this ⊢
      exact this

theorem scaled_bounds {v : ℚ} {e : ℤ} (h1 : (2 : ℚ) ^ e ≤ v)
    (h2 : v < (2 : ℚ) ^ (e + 1)) :
    (2 : ℚ) ^ (52 : ℕ) ≤ v / 2 ^ (e - 52) ∧ v / 2 ^ (e - 52) < (2 : ℚ) ^ (53 : ℕ) := by
  have hpos : (0 : ℚ) < 2 ^ (e - 52) := by positivity
  have e1 : (2 : ℚ) ^ e = 2 ^ (52 : ℕ) * 2 ^ (e - 52) := by
    rw [← zpow_natCast, ← zpow_add₀ (by norm_num : (2 : ℚ) ≠ 0)]
    congr 1; omega
  have e2 : (2 : ℚ) ^ (e + 1) = 2 ^ (53 : ℕ) * 2 ^ (e - 52) := by
    rw [← zpow_natCast, ← zpow_add₀ (by norm_num : (2 : ℚ) ≠ 0)]
    congr 1; omega
  constructor
  · rw [le_div_iff₀ hpos, ← e1]; exact h1
  · rw [div_lt_iff₀ hpos, ← e2]; exact h2

theorem roundDouble_pos_bounds {v : ℚ} (hv : 0 < v) :
    (2 : ℚ) ^ binade v ≤ roundDouble v ∧ roundDouble v ≤ (2 : ℚ) ^ (binade v + 1) := by
  obtain ⟨hlo, hhi⟩ := binade_spec (ne_of_gt hv)
  rw [abs_of_pos hv] at hlo hhi
  obtain ⟨s1, s2⟩ := scaled_bounds hlo hhi
  unfold roundDouble
  rw [if_neg (ne_of_gt hv)]
  generalize binade v = e at *
  have hpos : (0 : ℚ) < 2 ^ (e - 52) := by positivity
  have e1 : (2 : ℚ) ^ e = 2 ^ (52 : ℕ) * 2 ^ (e - 52) := by
    rw [← zpow_natCast, ← zpow_add₀ (by norm_num : (2 : ℚ) ≠ 0)]
    congr 1; omega
  have e2 : (2 : ℚ) ^ (e + 1) = 2 ^ (53 : ℕ) * 2 ^ (e - 52) := by
    rw [← zpow_natCast, ← zpow_add₀ (by norm_num : (2 : ℚ) ≠ 0)]
    congr 1; omega
  have r1 : ((2 ^ 52 : ℤ) : ℚ) ≤ (roundHalfEven (v / 2 ^ (e - 52)) : ℚ) :=
    Int.cast_le.mpr (intCast_le_roundHalfEven (by push_cast; exact s1))
  have r2 : (roundHalfEven (v / 2 ^ (e - 52)) : ℚ) ≤ ((2 ^ 53 : ℤ) : ℚ) :=
    Int.cast_le.mpr (roundHalfEven_le_intCast (by push_cast; exact le_of_lt s2))
  push_cast at r1 r2
  constructor
  · rw [e1]; exact mul_le_mul_of_nonneg_right r1 (le_of_lt hpos)
  · rw [e2]; exact mul_le_mul_of_nonneg_right r2 (le_of_lt hpos)

theorem roundDouble_pos {v : ℚ} (hv : 0 < v) : 0 < roundDouble v :=
  lt_of_lt_of_le (by positivity) (roundDouble_pos_bounds hv).1

theorem roundDouble_nonneg {v : ℚ} (hv : 0 ≤ v) : 0 ≤ roundDouble v := by
  rcases eq_or_lt_of_le hv with h | h
  · rw [← h, roundDouble_zero]
  · exact le_of_lt (roundDouble_pos h)

theorem roundDouble_mono_nonneg {a b : ℚ} (ha : 0 ≤ a) (h : a ≤ b) :
    roundDouble a ≤ roundDouble b := by
  rcases eq_or_lt_of_le ha with h0 | hapos
  · rw [← h0, roundDouble_zero]; exact roundDouble_nonneg (le_trans ha h)
  have hbpos : 0 < b := lt_of_lt_of_le hapos h
  rcases lt_or_eq_of_le (binade_mono hapos h) with hlt | heq
  · have h1 := (roundDouble_pos_bounds hapos).2
    have h2 := (roundDouble_pos_bounds hbpos).1
    have h3 : (2 : ℚ) ^ (binade a + 1) ≤ 2 ^ binade b :=
      zpow_le_zpow_right₀ (by norm_num) (by omega)
    linarith
  · unfold roundDouble
    rw [if_neg (ne_of_gt hapos), if_neg (ne_of_gt hbpos), heq]
    have hpos : (0 : ℚ) < 2 ^ (binade b - 52) := by positivity
    apply mul_le_mul_of_nonneg_right _ (le_of_lt hpos)
    exact Int.cast_le.mpr (roundHalfEven_mono (div_le_div_of_nonneg_right h (le_of_lt hpos)))

theorem binade_neg (v : ℚ) : binade (-v) = binade v := by
  unfold binade
  rw [abs_neg]

theorem roundDouble_neg (v : ℚ) : roundDouble (-v) = -roundDouble v := by
  unfold roundDouble
  by_cases hv : v = 0
  · simp [hv]
  · rw [if_neg hv, if_neg (neg_ne_zero.mpr hv), binade_neg, neg_div, roundHalfEven_neg]
    push_cast
    ring

theorem roundDouble_neg_of_neg {v : ℚ} (hv : v < 0) : roundDouble v < 0 := by
  have h := roundDouble_pos (neg_pos.mpr hv)
  rw [roundDouble_neg] at h
  linarith

theorem roundDouble_eq_zero_iff (v : ℚ) : roundDouble v = 0 ↔ v = 0 := by
  constructor
  · intro h
    by_contra hv
    rcases lt_or_gt_of_ne hv with hneg | hpos
    · exact absurd h (ne_of_lt (roundDouble_neg_of_neg hneg))
    · exact absurd h (ne_of_gt (roundDouble_pos hpos))
  · intro h; rw [h, roundDouble_zero]

theorem roundDouble_mono {a b : ℚ} (h : a ≤ b) : roundDouble a ≤ roundDouble b := by
  rcases le_or_lt 0 a with ha | ha
  · exact roundDouble_mono_nonneg ha h
  · rcases le_or_lt 0 b with hb | hb
    · exact le_trans (le_of_lt (roundDouble_neg_of_neg ha)) (roundDouble_nonneg hb)
    · have := roundDouble_mono_nonneg (le_of_lt (neg_pos.mpr hb)) (neg_le_neg h)
      rw [roundDouble_neg, roundDouble_neg] at this
      linarith

/-! ## Machine-integer facts -/

theorem checked64_of_inInt64 {x : Int} (h : inInt64 x) : checked64 x = some x := by
  unfold checked64
  rw [if_pos h]

theorem tdiv_ten_thousand (a : Int) :
    Int.tdiv a 10000 = if 0 ≤ a then a / 10000 else -((-a) / 10000) := by
  split_ifs with h
  · exact Int.tdiv_eq_ediv h (by norm_num)
  · have h1 : Int.tdiv (-a) 10000 = (-a) / 10000 :=
      Int.tdiv_eq_ediv (by omega) (by norm_num)
    rw [Int.neg_tdiv] at h1
    omega

theorem QuadPart_ofQuad (q : Int) : (LARGE_INTEGER.ofQuad q).QuadPart = q := by
  unfold LARGE_INTEGER.QuadPart LARGE_INTEGER.ofQuad
  simp only
  rw [Int.toNat_of_nonneg (Int.emod_nonneg q (by norm_num))]
  omega

theorem QuadPart_toLargeInteger_range (ft : FILETIME) :
    inInt64 ft.toLargeInteger.QuadPart := by
  unfold inInt64 LARGE_INTEGER.QuadPart FILETIME.toLargeInteger toLONG toDWORD
  simp only
  split_ifs <;> omega

theorem QuadPart_toLargeInteger_of_lt (ft : FILETIME) (h : ft.value < 2 ^ 63) :
    ft.toLargeInteger.QuadPart = (ft.value : Int) := by
  unfold FILETIME.value toDWORD at *
  unfold LARGE_INTEGER.QuadPart FILETIME.toLargeInteger toLONG toDWORD
  simp only
  split_ifs <;> push_cast <;> omega

set_option maxRecDepth 100000 in
theorem daysFrom1601To1970_eq : daysFrom1601To1970 = 134774 := by decide

/-! ## Unfolding the two routines -/

theorem system_clock_now_of_success (os : OS)
    (hok : (os.SystemTimeToFileTime os.GetSystemTime).1 = true) :
    system_clock.now os =
      (system_clock.ticksOfQuad
        (os.SystemTimeToFileTime os.GetSystemTime).2.toLargeInteger.QuadPart).map
        fun ms => ⟨⟨ms⟩⟩ := by
  unfold system_clock.now time_point_cast
  simp [hok]

theorem ticksOfQuad_eq (q : Int) (hq : inInt64 q) :
    system_clock.ticksOfQuad q = some (Int.tdiv q 10000 - 11644473600000) := by
  have hd := tdiv_ten_thousand q
  unfold inInt64 at hq
  have h1 : inInt64 (Int.tdiv q 10000) := by
    unfold inInt64
    split_ifs at hd <;> omega
  have h2 : inInt64 (Int.tdiv q 10000 - EPOCH_OFFSET_MS) := by
    unfold inInt64 EPOCH_OFFSET_MS
    split_ifs at hd <;> omega
  unfold system_clock.ticksOfQuad
  rw [checked64_of_inInt64 h1, Option.some_bind, checked64_of_inInt64 h2]
  rfl

theorem high_resolution_clock_now_of_success (os : OS)
    (hf : os.QueryPerformanceFrequency.1 = true) (hc : os.QueryPerformanceCounter.1 = true) :
    high_resolution_clock.now os =
      (high_resolution_clock.ticksOfCount os.QueryPerformanceCounter.2.QuadPart
        os.QueryPerformanceFrequency.2.QuadPart).map fun ns => ⟨⟨ns⟩⟩ := by
  unfold high_resolution_clock.now time_point_cast
  simp [hf, hc]

theorem roundDouble_billion : roundDouble ((1000000000 : Int) : ℚ) = 1000000000 := by
  have := roundDouble_intCast 1000000000 (by norm_num)
  simpa using this

theorem ticksOfCount_of_ne_zero (c : Int) {f : Int} (hf : f ≠ 0) :
    high_resolution_clock.ticksOfCount c f = checked64 (truncToInt (doubleQuotient c f)) := by
  have hne : roundDouble (f : ℚ) ≠ 0 := by
    rw [Ne, roundDouble_eq_zero_iff]
    exact_mod_cast hf
  unfold high_resolution_clock.ticksOfCount doubleQuotient Double.ofInt
  simp only [Double.mul, Double.div, if_neg hne, Double.toInt64]

theorem ticksOfCount_zero_frequency (c : Int) :
    high_resolution_clock.ticksOfCount c 0 = none := by
  unfold high_resolution_clock.ticksOfCount Double.ofInt
  simp only [Int.cast_zero, roundDouble_zero, Double.mul, Double.div, if_true]
  split_ifs <;> rfl

/-! ## Exactness of the double quotient on small operands -/

theorem roundDouble_le_of_le_repr {v : ℚ} (m k : ℤ) (hm : |m| < 2 ^ 53)
    (h : v ≤ (m : ℚ) * 2 ^ k) : roundDouble v ≤ (m : ℚ) * 2 ^ k := by
  have := roundDouble_mono h
  rwa [roundDouble_repr m k hm] at this

theorem le_roundDouble_of_intCast_le {v : ℚ} (n : ℤ) (hn : |n| ≤ 2 ^ 53)
    (h : (n : ℚ) ≤ v) : (n : ℚ) ≤ roundDouble v := by
  have := roundDouble_mono h
  rwa [roundDouble_intCast n hn] at this

theorem roundDouble_div_lt_one {x f : ℤ} (hx0 : 0 ≤ x) (hx : x < 2 ^ 53) (hxf : x < f) :
    0 ≤ roundDouble ((x : ℚ) / roundDouble (f : ℚ)) ∧
      roundDouble ((x : ℚ) / roundDouble (f : ℚ)) < 1 := by
  have hf : (0 : ℤ) < f := by omega
  have hfq : (0 : ℚ) < (f : ℚ) := by exact_mod_cast hf
  have hfpos : 0 < roundDouble (f : ℚ) := roundDouble_pos hfq
  have hxq0 : (0 : ℚ) ≤ (x : ℚ) := by exact_mod_cast hx0
  have hxq : (x : ℚ) ≤ 2 ^ 53 - 1 := by
    have : x ≤ 2 ^ 53 - 1 := by omega
    exact_mod_cast this
  refine ⟨roundDouble_nonneg (div_nonneg hxq0 (le_of_lt hfpos)), ?_⟩
  have hbound : (x : ℚ) / roundDouble (f : ℚ) ≤ ((2 ^ 53 - 1 : ℤ) : ℚ) * 2 ^ (-53 : ℤ) := by
    rw [div_le_iff₀ hfpos]
    have e : ((2 ^ 53 - 1 : ℤ) : ℚ) * 2 ^ (-53 : ℤ) = (2 ^ 53 - 1) / 2 ^ 53 := by norm_num
    rw [e, div_mul_eq_mul_div, le_div_iff₀ (by norm_num)]
    rcases le_or_lt f (2 ^ 53) with hle | hgt
    · rw [roundDouble_intCast f (by rw [abs_of_pos hf]; exact hle)]
      have h1 : (x : ℚ) ≤ (f : ℚ) - 1 := by
        have : x ≤ f - 1 := by omega
        exact_mod_cast this
      have h2 : (f : ℚ) ≤ 2 ^ 53 := by exact_mod_cast hle
      linarith
    · have h1 : ((2 ^ 53 : ℤ) : ℚ) ≤ roundDouble (f : ℚ) :=
        le_roundDouble_of_intCast_le (2 ^ 53) (by norm_num)
          (by exact_mod_cast le_of_lt hgt)
      push_cast at h1
      nlinarith
  have := roundDouble_le_of_le_repr (2 ^ 53 - 1) (-53) (by norm_num) hbound
  have e : ((2 ^ 53 - 1 : ℤ) : ℚ) * 2 ^ (-53 : ℤ) < 1 := by norm_num
  linarith

theorem roundDouble_div_floor {x f : ℤ} (hf : 0 < f) (hfx : f ≤ x) (hx : x < 2 ^ 53) :
    ((x / f : ℤ) : ℚ) ≤ roundDouble ((x : ℚ) / (f : ℚ)) ∧
      roundDouble ((x : ℚ) / (f : ℚ)) < ((x / f : ℤ) : ℚ) + 1 := by
  have hx0 : 0 ≤ x := by omega
  have hfq : (0 : ℚ) < (f : ℚ) := by exact_mod_cast hf
  have hdm : f * (x / f) + x % f = x := Int.ediv_add_emod x f
  have hr0 : 0 ≤ x % f := Int.emod_nonneg x (by omega)
  have hr1 : x % f < f := Int.emod_lt_of_pos x hf
  have hq1 : 1 ≤ x / f := by
    by_contra hcon
    have hq0 : 0 ≤ x / f := Int.ediv_nonneg hx0 (le_of_lt hf)
    have : x / f = 0 := by omega
    rw [this] at hdm
    omega
  have hqx : x / f ≤ x := Int.ediv_le_self f hx0
  generalize x / f = q at hdm hq1 hqx ⊢
  generalize x % f = r at hdm hr0 hr1
  have hxq : (x : ℚ) = (f : ℚ) * q + r := by exact_mod_cast hdm.symm
  have hrq0 : (0 : ℚ) ≤ (r : ℚ) := by exact_mod_cast hr0
  have hrq1 : (r : ℚ) ≤ (f : ℚ) - 1 := by
    have : r ≤ f - 1 := by omega
    exact_mod_cast this
  -- the exact quotient lies in [q, q + 1 - 1/f]
  have hvlo : (q : ℚ) ≤ (x : ℚ) / f := by
    rw [le_div_iff₀ hfq, hxq]; nlinarith
  have hvhi : (x : ℚ) / f ≤ (q : ℚ) + 1 - 1 / f := by
    rw [div_le_iff₀ hfq, hxq]
    have : ((q : ℚ) + 1 - 1 / f) * f = (q : ℚ) * f + f - 1 := by
      field_simp
      ring
    rw [this]; nlinarith
  have hq1q : (1 : ℚ) ≤ (q : ℚ) := by exact_mod_cast hq1
  have hvpos : (0 : ℚ) < (x : ℚ) / f := by linarith
  have hinv : (0 : ℚ) < 1 / (f : ℚ) := by positivity
  constructor
  · exact le_roundDouble_of_intCast_le q (by rw [abs_of_pos (by omega)]; omega) hvlo
  · obtain ⟨hlo, hhi⟩ := binade_spec (ne_of_gt hvpos)
    rw [abs_of_pos hvpos] at hlo hhi
    have hrd := roundDouble_of_binade (v := (x : ℚ) / f) (e := binade ((x : ℚ) / f))
      (by rw [abs_of_pos hvpos]; exact hlo) (by rw [abs_of_pos hvpos]; exact hhi)
    generalize binade ((x : ℚ) / f) = E at hlo hhi hrd
    have hE0 : 0 ≤ E := by
      by_contra hcon
      have : (2 : ℚ) ^ (E + 1) ≤ 2 ^ (0 : ℤ) :=
        zpow_le_zpow_right₀ (by norm_num) (by omega)
      simp only [zpow_zero] at this
      linarith
    obtain ⟨e, rfl⟩ := Int.eq_ofNat_of_zero_le hE0
    rw [zpow_natCast] at hlo
    -- 2^e ≤ q as integers
    have hqe : (2 : ℤ) ^ e ≤ q := by
      have h1 : (((2 : ℤ) ^ e : ℤ) : ℚ) < ((q + 1 : ℤ) : ℚ) := by
        push_cast; linarith
      have := Int.cast_lt.mp h1
      omega
    have hpe : (0 : ℤ) < 2 ^ e := by positivity
    have hmul : (2 : ℤ) ^ e * f < 2 ^ 53 := by
      have h1 : (2 : ℤ) ^ e * f ≤ q * f := Int.mul_le_mul_of_nonneg_right hqe (le_of_lt hf)
      nlinarith
    have he52 : e ≤ 52 := by
      by_contra hcon
      have h1 : (2 : ℤ) ^ 53 ≤ 2 ^ e := pow_le_pow_right₀ (by norm_num) (by omega)
      nlinarith
    obtain ⟨D, hD⟩ : ∃ D : ℕ, e + D = 52 := ⟨52 - e, by omega⟩
    have hfD : f < 2 * 2 ^ D := by
      have h53 : (2 : ℤ) ^ 53 = 2 ^ e * (2 * 2 ^ D) := by
        rw [← pow_succ', ← pow_add]; congr 1; omega
      rw [h53] at hmul
      exact lt_of_mul_lt_mul_left hmul (le_of_lt hpe)
    have hfDq : (f : ℚ) < 2 * 2 ^ D := by exact_mod_cast hfD
    have hPpos : (0 : ℚ) < 2 ^ D := by positivity
    have hscale : (2 : ℚ) ^ ((e : ℤ) - 52) = ((2 : ℚ) ^ D)⁻¹ := by
      rw [← zpow_natCast, ← zpow_neg]; congr 1; omega
    rw [hscale, div_inv_eq_mul] at hrd
    -- the scaled quotient stays more than one half below (q + 1) * 2^D
    have hw : (x : ℚ) / f * 2 ^ D < (((q + 1) * 2 ^ D : ℤ) : ℚ) - 1 / 2 := by
      push_cast
      have h1 : (x : ℚ) / f * 2 ^ D ≤ ((q : ℚ) + 1 - 1 / f) * 2 ^ D :=
        mul_le_mul_of_nonneg_right hvhi (le_of_lt hPpos)
      have h2 : (1 : ℚ) / 2 < 1 / f * 2 ^ D := by
        rw [one_div_mul_eq_div, lt_div_iff₀ hfq]; linarith
      nlinarith
    have hlt := roundHalfEven_lt_of_lt_sub_half hw
    have hle : (roundHalfEven ((x : ℚ) / f * 2 ^ D) : ℚ) ≤ ((q : ℚ) + 1) * 2 ^ D - 1 := by
      have : roundHalfEven ((x : ℚ) / f * 2 ^ D) ≤ (q + 1) * 2 ^ D - 1 := by omega
      exact_mod_cast this
    rw [hrd, ← div_eq_mul_inv, div_lt_iff₀ hPpos]
    linarith

theorem truncToInt_of_nonneg {v : ℚ} (hv : 0 ≤ v) : truncToInt v = ⌊v⌋ := by
  unfold truncToInt
  rw [if_pos hv]

theorem doubleQuotient_exact {c f : ℤ} (hc : 0 ≤ c) (hf : 0 < f)
    (hx : c * 1000000000 < 2 ^ 53) :
    truncToInt (doubleQuotient c f) = c * 1000000000 / f := by
  unfold doubleQuotient
  rw [roundDouble_billion, roundDouble_intCast c (by rw [abs_of_nonneg hc]; omega)]
  have hprod : (c : ℚ) * 1000000000 = ((c * 1000000000 : ℤ) : ℚ) := by push_cast; ring
  have hx0 : 0 ≤ c * 1000000000 := by omega
  rw [hprod, roundDouble_intCast _ (by rw [abs_of_nonneg hx0]; omega)]
  generalize c * 1000000000 = x at hx hx0 ⊢
  rcases lt_or_le x f with hxf | hfx
  · obtain ⟨h0, h1⟩ := roundDouble_div_lt_one hx0 hx hxf
    rw [truncToInt_of_nonneg h0, Int.ediv_eq_zero_of_lt hx0 hxf, Int.floor_eq_iff]
    constructor
    · simpa using h0
    · simpa using h1
  · rw [roundDouble_intCast f (by rw [abs_of_pos hf]; omega)]
    obtain ⟨h0, h1⟩ := roundDouble_div_floor hf hfx hx
    have hq0 : (0 : ℚ) ≤ ((x / f : ℤ) : ℚ) := by
      exact_mod_cast Int.ediv_nonneg hx0 (le_of_lt hf)
    rw [truncToInt_of_nonneg (le_trans hq0 h0), Int.floor_eq_iff]
    exact ⟨h0, h1⟩

theorem roundDouble_eq_of_near {v : ℚ} (e n : ℤ) (h1 : (2 : ℚ) ^ e ≤ v)
    (h2 : v < (2 : ℚ) ^ (e + 1)) (h3 : (n : ℚ) - 1 / 2 < v / 2 ^ (e - 52))
    (h4 : v / 2 ^ (e - 52) < (n : ℚ) + 1 / 2) :
    roundDouble v = (n : ℚ) * 2 ^ (e - 52) := by
  have hpos : (0 : ℚ) < v := lt_of_lt_of_le (by positivity) h1
  rw [roundDouble_of_binade (e := e) (by rw [abs_of_pos hpos]; exact h1)
    (by rw [abs_of_pos hpos]; exact h2)]
  rw [roundHalfEven_eq_of_abs_sub_lt (n := n) (by rw [abs_lt]; constructor <;> linarith)]

theorem doubleQuotient_pm_timer :
    doubleQuotient 2056336294 3579545 = 574468624923 := by
  unfold doubleQuotient
  rw [roundDouble_billion]
  have h1 : roundDouble ((2056336294 : ℤ) : ℚ) = 2056336294 := by
    simpa using roundDouble_intCast 2056336294 (by norm_num)
  have h2 : roundDouble ((2056336294 : ℚ) * 1000000000) = 2056336294000000000 := by
    have := roundDouble_repr (2056336294 * 1953125) 9 (by norm_num)
    norm_num at this ⊢
    exact this
  have h3 : roundDouble ((3579545 : ℤ) : ℚ) = 3579545 := by
    simpa using roundDouble_intCast 3579545 (by norm_num)
  have h4 : roundDouble ((2056336294000000000 : ℚ) / 3579545) = 574468624923 := by
    rw [roundDouble_eq_of_near 39 4706046975369216 (by norm_num) (by norm_num)
      (by norm_num) (by norm_num)]
    norm_num
  rw [h1, h2, h3, h4]

theorem truncToInt_intCast (n : ℤ) : truncToInt (n : ℚ) = n := by
  unfold truncToInt
  split_ifs <;> simp

theorem truncToInt_mono {a b : ℚ} (h : a ≤ b) : truncToInt a ≤ truncToInt b := by
  unfold truncToInt
  split_ifs with ha hb hb
  · exact Int.floor_mono h
  · exact absurd (le_trans ha h) hb
  · have h1 : ⌈a⌉ ≤ 0 := Int.ceil_le.mpr (by push_cast; linarith)
    have h2 : 0 ≤ ⌊b⌋ := Int.floor_nonneg.mpr hb
    omega
  · exact Int.ceil_mono h

theorem truncToInt_nonneg {v : ℚ} (hv : 0 ≤ v) : 0 ≤ truncToInt v := by
  rw [truncToInt_of_nonneg hv]
  exact Int.floor_nonneg.mpr hv

theorem doubleQuotient_nonneg {c f : ℤ} (hc : 0 ≤ c) (hf : 0 < f) :
    0 ≤ doubleQuotient c f := by
  unfold doubleQuotient
  have h1 : (0 : ℚ) ≤ roundDouble (c : ℚ) := roundDouble_nonneg (by exact_mod_cast hc)
  have h2 : (0 : ℚ) < roundDouble (f : ℚ) := roundDouble_pos (by exact_mod_cast hf)
  rw [roundDouble_billion]
  exact roundDouble_nonneg (div_nonneg (roundDouble_nonneg (by positivity)) (le_of_lt h2))

theorem doubleQuotient_mono {c1 c2 f : ℤ} (hf : 0 < f) (h : c1 ≤ c2) :
    doubleQuotient c1 f ≤ doubleQuotient c2 f := by
  unfold doubleQuotient
  have h2 : (0 : ℚ) < roundDouble (f : ℚ) := roundDouble_pos (by exact_mod_cast hf)
  have h1 : roundDouble (c1 : ℚ) ≤ roundDouble (c2 : ℚ) :=
    roundDouble_mono (by exact_mod_cast h)
  rw [roundDouble_billion]
  apply roundDouble_mono
  apply div_le_div_of_nonneg_right _ (le_of_lt h2)
  apply roundDouble_mono
  exact mul_le_mul_of_nonneg_right h1 (by norm_num)

theorem doubleQuotient_overflow :
    doubleQuotient 1152921504606846976 10000000 = 115292150460684697600 := by
  unfold doubleQuotient
  rw [roundDouble_billion]
  have h1 : roundDouble ((1152921504606846976 : ℤ) : ℚ) = 1152921504606846976 := by
    have := roundDouble_repr 1 60 (by norm_num)
    norm_num at this ⊢
    exact this
  have h2 : roundDouble ((1152921504606846976 : ℚ) * 1000000000)
      = 1152921504606846976000000000 := by
    have := roundDouble_repr 1953125 69 (by norm_num)
    norm_num at this ⊢
    exact this
  have h3 : roundDouble ((10000000 : ℤ) : ℚ) = 10000000 := by
    simpa using roundDouble_intCast 10000000 (by norm_num)
  have h4 : roundDouble ((1152921504606846976000000000 : ℚ) / 10000000)
      = 115292150460684697600 := by
    have := roundDouble_repr 25 62 (by norm_num)
    norm_num at this ⊢
    exact this
  rw [h1, h2, h3, h4]

/-! ## Relative error of one rounding, and the range of the quotient -/

theorem roundDouble_le_mul {v : ℚ} (hv : 0 ≤ v) :
    roundDouble v ≤ v * (1 + 1 / 2 ^ 53) := by
  rcases eq_or_lt_of_le hv with h0 | hpos
  · rw [← h0, roundDouble_zero]; norm_num
  obtain ⟨hlo, hhi⟩ := binade_spec (ne_of_gt hpos)
  rw [abs_of_pos hpos] at hlo hhi
  obtain ⟨s1, -⟩ := scaled_bounds hlo hhi
  unfold roundDouble
  rw [if_neg (ne_of_gt hpos)]
  generalize binade v = e at *
  have hs : (0 : ℚ) < 2 ^ (e - 52) := by positivity
  have hr := roundHalfEven_le_add_half (v / 2 ^ (e - 52))
  have hv' : v = v / 2 ^ (e - 52) * 2 ^ (e - 52) := by field_simp
  generalize v / 2 ^ (e - 52) = w at s1 hr hv'
  rw [hv']
  have h1 : (roundHalfEven w : ℚ) ≤ w * (1 + 1 / 2 ^ 53) := by
    norm_num at s1 ⊢
    linarith
  calc (roundHalfEven w : ℚ) * 2 ^ (e - 52)
      ≤ w * (1 + 1 / 2 ^ 53) * 2 ^ (e - 52) := mul_le_mul_of_nonneg_right h1 (le_of_lt hs)
    _ = w * 2 ^ (e - 52) * (1 + 1 / 2 ^ 53) := by ring

theorem mul_le_roundDouble {v : ℚ} (hv : 0 ≤ v) :
    v * (1 - 1 / 2 ^ 53) ≤ roundDouble v := by
  rcases eq_or_lt_of_le hv with h0 | hpos
  · rw [← h0, roundDouble_zero]; norm_num
  obtain ⟨hlo, hhi⟩ := binade_spec (ne_of_gt hpos)
  rw [abs_of_pos hpos] at hlo hhi
  obtain ⟨s1, -⟩ := scaled_bounds hlo hhi
  unfold roundDouble
  rw [if_neg (ne_of_gt hpos)]
  generalize binade v = e at *
  have hs : (0 : ℚ) < 2 ^ (e - 52) := by positivity
  have hr := sub_half_le_roundHalfEven (v / 2 ^ (e - 52))
  have hv' : v = v / 2 ^ (e - 52) * 2 ^ (e - 52) := by field_simp
  generalize v / 2 ^ (e - 52) = w at s1 hr hv'
  rw [hv']
  have h1 : w * (1 - 1 / 2 ^ 53) ≤ (roundHalfEven w : ℚ) := by
    norm_num at s1 ⊢
    linarith
  calc w * 2 ^ (e - 52) * (1 - 1 / 2 ^ 53)
      = w * (1 - 1 / 2 ^ 53) * 2 ^ (e - 52) := by ring
    _ ≤ (roundHalfEven w : ℚ) * 2 ^ (e - 52) := mul_le_mul_of_nonneg_right h1 (le_of_lt hs)

theorem doubleQuotient_lt_of_le {c f : ℤ} (hc : 0 ≤ c) (hf : 0 < f)
    (hx : c * 1000000000 ≤ 2 ^ 62 * f) : doubleQuotient c f < 2 ^ 63 := by
  have hcq : (0 : ℚ) ≤ (c : ℚ) := by exact_mod_cast hc
  have hfq : (0 : ℚ) < (f : ℚ) := by exact_mod_cast hf
  have hxq : (c : ℚ) * 1000000000 ≤ 2 ^ 62 * (f : ℚ) := by exact_mod_cast hx
  unfold doubleQuotient
  rw [roundDouble_billion]
  have ha0 : (0 : ℚ) ≤ roundDouble (c : ℚ) := roundDouble_nonneg hcq
  have ha := roundDouble_le_mul hcq
  have hp0 : (0 : ℚ) ≤ roundDouble (c : ℚ) * 1000000000 := by positivity
  have hb0 := roundDouble_nonneg hp0
  have hb := roundDouble_le_mul hp0
  have hg := mul_le_roundDouble (le_of_lt hfq)
  have hgpos : (0 : ℚ) < roundDouble (f : ℚ) := roundDouble_pos hfq
  have hq0 : (0 : ℚ) ≤ roundDouble (roundDouble (c : ℚ) * 1000000000) / roundDouble (f : ℚ) :=
    div_nonneg hb0 (le_of_lt hgpos)
  have hq := roundDouble_le_mul hq0
  generalize roundDouble (c : ℚ) = a at ha0 ha hp0 hb0 hb hq0 hq
  generalize roundDouble (a * 1000000000) = b at hb0 hb hq0 hq
  generalize roundDouble (f : ℚ) = g at hg hgpos hq0 hq
  generalize roundDouble (b / g) = r at hq
  -- b ≤ 2^62 * f * (1 + u)^2 and g ≥ f * (1 - u), hence b / g ≤ 2^62 * (1 + u)^2 / (1 - u)
  have hb' : b ≤ 2 ^ 62 * (f : ℚ) * ((1 + 1 / 2 ^ 53) * (1 + 1 / 2 ^ 53)) := by
    have h1 : a * 1000000000 ≤ (c : ℚ) * 1000000000 * (1 + 1 / 2 ^ 53) := by linarith
    have h2 : a * 1000000000 * (1 + 1 / 2 ^ 53)
        ≤ (c : ℚ) * 1000000000 * (1 + 1 / 2 ^ 53) * (1 + 1 / 2 ^ 53) :=
      mul_le_mul_of_nonneg_right h1 (by norm_num)
    have h3 : (c : ℚ) * 1000000000 * ((1 + 1 / 2 ^ 53) * (1 + 1 / 2 ^ 53))
        ≤ 2 ^ 62 * (f : ℚ) * ((1 + 1 / 2 ^ 53) * (1 + 1 / 2 ^ 53)) :=
      mul_le_mul_of_nonneg_right hxq (by norm_num)
    linarith
  have hdiv : b / g ≤ 2 ^ 62 * ((1 + 1 / 2 ^ 53) * (1 + 1 / 2 ^ 53)) / (1 - 1 / 2 ^ 53) := by
    rw [div_le_div_iff₀ hgpos (by norm_num)]
    have h4 : b * (1 - 1 / 2 ^ 53)
        ≤ 2 ^ 62 * (f : ℚ) * ((1 + 1 / 2 ^ 53) * (1 + 1 / 2 ^ 53)) * (1 - 1 / 2 ^ 53) :=
      mul_le_mul_of_nonneg_right hb' (by norm_num)
    have h5 : 2 ^ 62 * ((1 + 1 / 2 ^ 53) * (1 + 1 / 2 ^ 53)) * ((f : ℚ) * (1 - 1 / 2 ^ 53))
        ≤ 2 ^ 62 * ((1 + 1 / 2 ^ 53) * (1 + 1 / 2 ^ 53)) * g :=
      mul_le_mul_of_nonneg_left hg (by norm_num)
    linarith
  have hfin : b / g * (1 + 1 / 2 ^ 53)
      ≤ 2 ^ 62 * ((1 + 1 / 2 ^ 53) * (1 + 1 / 2 ^ 53)) / (1 - 1 / 2 ^ 53)
        * (1 + 1 / 2 ^ 53) :=
    mul_le_mul_of_nonneg_right hdiv (by norm_num)
  have hnum : (2 : ℚ) ^ 62 * ((1 + 1 / 2 ^ 53) * (1 + 1 / 2 ^ 53)) / (1 - 1 / 2 ^ 53)
      * (1 + 1 / 2 ^ 53) < 2 ^ 63 := by norm_num
  linarith

/-! ## Claims about `system_clock::now` -/

/-- C1: whenever `SystemTimeToFileTime` reports failure, `system_clock::now` returns a
defined time point of exactly 0 ticks, whatever the `SYSTEMTIME` and `FILETIME` buffers
hold. -/
theorem system_clock_now_failure_zero (os : OS)
    (hfail : (os.SystemTimeToFileTime os.GetSystemTime).1 = false) :
    system_clock.now os = some ⟨⟨0⟩⟩ ∧
      (system_clock.now os).map time_point.ticks = some 0 := by
  unfold system_clock.now time_point_cast
  simp [hfail, time_point.ticks]

theorem system_clock_now_failure_zero_witness :
    ((OS.ofFileTime false ⟨4294967295, 4294967295⟩).SystemTimeToFileTime
        (OS.ofFileTime false ⟨4294967295, 4294967295⟩).GetSystemTime).1 = false ∧
      (system_clock.now (OS.ofFileTime false ⟨4294967295, 4294967295⟩) = some ⟨⟨0⟩⟩ ∧
        (system_clock.now (OS.ofFileTime false ⟨4294967295, 4294967295⟩)).map
          time_point.ticks = some 0) :=
  ⟨rfl, system_clock_now_failure_zero _ rfl⟩

/-- C3 (as stated, refuted): for the native value 116444735999999999, one 100-ns interval
before 1 January 1970, the routine returns -1 tick while re-anchoring first and then
truncating gives 0. -/
theorem reanchor_order_counterexample :
    (FILETIME.ofNat 116444735999999999).value = 116444735999999999 ∧
      (system_clock.now (OS.ofFileTime true (FILETIME.ofNat 116444735999999999))).map
        time_point.ticks = some (-1) ∧
      reanchorThenRescale 116444735999999999 = 0 ∧
      (system_clock.now (OS.ofFileTime true (FILETIME.ofNat 116444735999999999))).map
        time_point.ticks ≠ some (reanchorThenRescale 116444735999999999) := by
  decide

/-- C3 (amended): for every successfully converted native value below `2^63` the tick
count is the floor of `(ft - 116444736000000000) / 10000` (division rounding toward
minus infinity), and for every such value at or after 1 January 1970 it equals the
re-anchor-then-truncate value of the specification. -/
theorem system_clock_now_success_ticks (os : OS)
    (hok : (os.SystemTimeToFileTime os.GetSystemTime).1 = true)
    (hrange : (os.SystemTimeToFileTime os.GetSystemTime).2.value < 2 ^ 63) :
    (system_clock.now os).map time_point.ticks =
        some ((((os.SystemTimeToFileTime os.GetSystemTime).2.value : Int)
          - 116444736000000000) / 10000) ∧
      (116444736000000000 ≤ (os.SystemTimeToFileTime os.GetSystemTime).2.value →
        (system_clock.now os).map time_point.ticks =
          some (reanchorThenRescale
            ((os.SystemTimeToFileTime os.GetSystemTime).2.value : Int))) := by
  rw [system_clock_now_of_success os hok,
    ticksOfQuad_eq _ (QuadPart_toLargeInteger_range _),
    QuadPart_toLargeInteger_of_lt _ hrange]
  generalize (os.SystemTimeToFileTime os.GetSystemTime).2.value = n at hrange ⊢
  have h1 : Int.tdiv (n : Int) 10000 = (n : Int) / 10000 :=
    Int.tdiv_eq_ediv (by omega) (by norm_num)
  simp only [Option.map_some', time_point.ticks, Option.some.injEq]
  constructor
  · rw [h1]; omega
  · intro hge
    unfold reanchorThenRescale
    have h2 : Int.tdiv ((n : Int) - 116444736000000000) 10000
        = ((n : Int) - 116444736000000000) / 10000 :=
      Int.tdiv_eq_ediv (by omega) (by norm_num)
    rw [h1, h2]; omega

theorem system_clock_now_success_ticks_witness :
    ((OS.ofFileTime true (FILETIME.ofNat 133000000000000000)).SystemTimeToFileTime
        (OS.ofFileTime true (FILETIME.ofNat 133000000000000000)).GetSystemTime).1 = true ∧
      ((OS.ofFileTime true (FILETIME.ofNat 133000000000000000)).SystemTimeToFileTime
        (OS.ofFileTime true (FILETIME.ofNat 133000000000000000)).GetSystemTime).2.value
          < 2 ^ 63 ∧
      (system_clock.now (OS.ofFileTime true (FILETIME.ofNat 133000000000000000))).map
        time_point.ticks = some 1655526400000 :=
  ⟨rfl, by decide,
    (system_clock_now_success_ticks
      (OS.ofFileTime true (FILETIME.ofNat 133000000000000000)) rfl (by decide)).1⟩

/-- C4: the constant 11644473600000 is the number of days from 1 January 1601 to
1 January 1970 in the proleptic Gregorian calendar times 86400000, and the native value
of 1 January 1970 (that day count times 864000000000, which is 116444736000000000)
converts to exactly 0 ticks. -/
theorem epoch_offset_exact :
    EPOCH_OFFSET_MS = (daysFrom1601To1970 : Int) * 86400000 ∧
      daysFrom1601To1970 * 864000000000 = 116444736000000000 ∧
      system_clock.now
        (OS.ofFileTime true (FILETIME.ofNat (daysFrom1601To1970 * 864000000000)))
        = some ⟨⟨0⟩⟩ := by
  rw [daysFrom1601To1970_eq]
  decide

/-- C9: for every pair of 32-bit halves of a `FILETIME`, the assembled `QuadPart`, the
quotient `QuadPart / 10000` and the difference `QuadPart / 10000 - 11644473600000` all
lie in the signed 64-bit range, the difference equals its reduction modulo `2^64`, and
the checked evaluation of the expression is defined with that value. -/
theorem system_clock_arithmetic_no_overflow (ft : FILETIME) :
    inInt64 ft.toLargeInteger.QuadPart ∧
      inInt64 (Int.tdiv ft.toLargeInteger.QuadPart 10000) ∧
      inInt64 (Int.tdiv ft.toLargeInteger.QuadPart 10000 - EPOCH_OFFSET_MS) ∧
      wrapInt64 (Int.tdiv ft.toLargeInteger.QuadPart 10000 - EPOCH_OFFSET_MS)
        = Int.tdiv ft.toLargeInteger.QuadPart 10000 - EPOCH_OFFSET_MS ∧
      system_clock.ticksOfQuad ft.toLargeInteger.QuadPart
        = some (Int.tdiv ft.toLargeInteger.QuadPart 10000 - EPOCH_OFFSET_MS) := by
  have hq := QuadPart_toLargeInteger_range ft
  have ht := ticksOfQuad_eq _ hq
  generalize ft.toLargeInteger.QuadPart = q at hq ht ⊢
  have hd := tdiv_ten_thousand q
  unfold inInt64 at hq ⊢
  unfold wrapInt64 EPOCH_OFFSET_MS
  refine ⟨hq, ?_, ?_, ?_, ht⟩ <;> split_ifs at hd <;> omega

/-! ## Claims about `high_resolution_clock::now` -/

/-- C2: if the frequency query fails, or it succeeds and the counter query fails,
`high_resolution_clock::now` returns a defined time point of exactly 0 ticks, whatever
the count and frequency buffers hold (frequency 0 included). -/
theorem high_resolution_clock_now_failure_zero (os : OS)
    (hfail : os.QueryPerformanceFrequency.1 = false ∨
      (os.QueryPerformanceFrequency.1 = true ∧ os.QueryPerformanceCounter.1 = false)) :
    high_resolution_clock.now os = some ⟨⟨0⟩⟩ ∧
      (high_resolution_clock.now os).map time_point.ticks = some 0 := by
  unfold high_resolution_clock.now time_point_cast
  rcases hfail with h | ⟨h1, h2⟩
  · simp [h, time_point.ticks]
  · simp [h1, h2, time_point.ticks]

theorem high_resolution_clock_now_failure_zero_witness :
    ((OS.ofCounter true false 123456789 0).QueryPerformanceFrequency.1 = false ∨
      ((OS.ofCounter true false 123456789 0).QueryPerformanceFrequency.1 = true ∧
        (OS.ofCounter true false 123456789 0).QueryPerformanceCounter.1 = false)) ∧
      (high_resolution_clock.now (OS.ofCounter true false 123456789 0) = some ⟨⟨0⟩⟩ ∧
        (high_resolution_clock.now (OS.ofCounter true false 123456789 0)).map
          time_point.ticks = some 0) :=
  ⟨Or.inr ⟨rfl, rfl⟩, high_resolution_clock_now_failure_zero _ (Or.inr ⟨rfl, rfl⟩)⟩

theorem ticksOfCount_zero_count {f : Int} (hf : f ≠ 0) :
    high_resolution_clock.ticksOfCount 0 f = some 0 := by
  rw [ticksOfCount_of_ne_zero 0 hf]
  unfold doubleQuotient
  simp only [Int.cast_zero, roundDouble_zero, zero_mul, zero_div]
  decide

/-- C8: for each source there is a successful operating-system response whose time
point equals the one returned on acquisition failure (0 ticks): the native value
116444736000000000 for `system_clock::now`, and counter 0 with the positive frequency
10000000 for `high_resolution_clock::now`. -/
theorem sentinel_ambiguity :
    (∃ ok bad : OS,
      (ok.SystemTimeToFileTime ok.GetSystemTime).1 = true ∧
      (ok.SystemTimeToFileTime ok.GetSystemTime).2.value = 116444736000000000 ∧
      (bad.SystemTimeToFileTime bad.GetSystemTime).1 = false ∧
      system_clock.now ok = some ⟨⟨0⟩⟩ ∧
      system_clock.now ok = system_clock.now bad) ∧
    (∃ ok bad : OS,
      ok.QueryPerformanceFrequency.1 = true ∧ ok.QueryPerformanceCounter.1 = true ∧
      ok.QueryPerformanceCounter.2.QuadPart = 0 ∧
      ok.QueryPerformanceFrequency.2.QuadPart = 10000000 ∧
      bad.QueryPerformanceFrequency.1 = false ∧
      high_resolution_clock.now ok = some ⟨⟨0⟩⟩ ∧
      high_resolution_clock.now ok = high_resolution_clock.now bad) := by
  constructor
  · refine ⟨OS.ofFileTime true (FILETIME.ofNat 116444736000000000),
      OS.ofFileTime false (FILETIME.ofNat 0), ?_⟩
    decide
  · refine ⟨OS.ofCounter true true 0 10000000, OS.ofCounter false false 0 0,
      rfl, rfl, by decide, by decide, rfl, ?_⟩
    have h1 := high_resolution_clock_now_of_success (OS.ofCounter true true 0 10000000)
      rfl rfl
    have hq0 : (OS.ofCounter true true 0 10000000).QueryPerformanceCounter.2.QuadPart = 0 := by
      decide
    have hqf : (OS.ofCounter true true 0 10000000).QueryPerformanceFrequency.2.QuadPart
        = 10000000 := by decide
    rw [hq0, hqf, ticksOfCount_zero_count (by norm_num)] at h1
    have h2 := (high_resolution_clock_now_failure_zero (OS.ofCounter false false 0 0)
      (Or.inl rfl)).1
    rw [h1, h2]
    exact ⟨rfl, rfl⟩

/-! ## Claim about `nullptr.h` -/

/-- C10: for every pointer `p`, through the const and the non-const overloads alike,
`p == nullptr` and `nullptr == p` are true exactly when `p` is the null pointer,
`p != nullptr` and `nullptr != p` are their negations, the conversion of `nullptr` to a
pointer type is the null pointer, and `static_cast<T*>(nullptr) == nullptr` holds. -/
theorem nullptr_comparisons (T : Type) (p : Pointer T) :
    (operator_eq_const_ptr_null p nullptr = true ↔ p = Pointer.null) ∧
    (operator_eq_ptr_null p nullptr = true ↔ p = Pointer.null) ∧
    (operator_eq_null_const_ptr nullptr p = true ↔ p = Pointer.null) ∧
    (operator_eq_null_ptr nullptr p = true ↔ p = Pointer.null) ∧
    operator_ne_const_ptr_null p nullptr = !operator_eq_const_ptr_null p nullptr ∧
    operator_ne_ptr_null p nullptr = !operator_eq_ptr_null p nullptr ∧
    operator_ne_null_const_ptr nullptr p = !operator_eq_null_const_ptr nullptr p ∧
    operator_ne_null_ptr nullptr p = !operator_eq_null_ptr nullptr p ∧
    nullptr.toPointer T = Pointer.null ∧
    operator_eq_ptr_null (nullptr.toPointer T) nullptr = true ∧
    operator_eq_const_ptr_null (nullptr.toPointer T) nullptr = true ∧
    operator_ne_ptr_null (nullptr.toPointer T) nullptr = false := by
  cases p <;>
    simp [operator_eq_const_ptr_null, operator_eq_ptr_null, operator_eq_null_const_ptr,
      operator_eq_null_ptr, operator_ne_const_ptr_null, operator_ne_ptr_null,
      operator_ne_null_const_ptr, operator_ne_null_ptr, Pointer.builtin_eq,
      Pointer.builtin_ne, nullptr_implementation.toPointer]

/-- C5 (as stated, refuted): with counter 2056336294 and frequency 3579545 both queries
succeeding, the routine returns 574468624923 ticks while the exact reference
`floor (c * 1000000000 / f)` is 574468624922. -/
theorem frequency_scaling_counterexample :
    (0 : Int) ≤ 2056336294 ∧ (0 : Int) < 3579545 ∧
      (high_resolution_clock.now (OS.ofCounter true true 2056336294 3579545)).map
        time_point.ticks = some 574468624923 ∧
      exactNanoseconds 2056336294 3579545 = 574468624922 ∧
      (high_resolution_clock.now (OS.ofCounter true true 2056336294 3579545)).map
        time_point.ticks ≠ some (exactNanoseconds 2056336294 3579545) := by
  have h := high_resolution_clock_now_of_success
    (OS.ofCounter true true 2056336294 3579545) rfl rfl
  have hc : (OS.ofCounter true true 2056336294 3579545).QueryPerformanceCounter.2.QuadPart
      = 2056336294 := QuadPart_ofQuad _
  have hf : (OS.ofCounter true true 2056336294 3579545).QueryPerformanceFrequency.2.QuadPart
      = 3579545 := QuadPart_ofQuad _
  have ht : high_resolution_clock.ticksOfCount 2056336294 3579545 = some 574468624923 := by
    rw [ticksOfCount_of_ne_zero _ (by norm_num), doubleQuotient_pm_timer]
    have : truncToInt (574468624923 : ℚ) = 574468624923 := by
      simpa using truncToInt_intCast 574468624923
    rw [this]
    decide
  have he : exactNanoseconds 2056336294 3579545 = 574468624922 := by decide
  rw [hc, hf, ht] at h
  rw [h, he]
  refine ⟨by norm_num, by norm_num, rfl, rfl, ?_⟩
  simp [time_point.ticks]

theorem high_resolution_clock_now_of_small (os : OS)
    (hF : os.QueryPerformanceFrequency.1 = true) (hC : os.QueryPerformanceCounter.1 = true)
    (hc : 0 ≤ os.QueryPerformanceCounter.2.QuadPart)
    (hf : 0 < os.QueryPerformanceFrequency.2.QuadPart)
    (hx : os.QueryPerformanceCounter.2.QuadPart * 1000000000 < 2 ^ 53) :
    high_resolution_clock.now os =
      some ⟨⟨exactNanoseconds os.QueryPerformanceCounter.2.QuadPart
        os.QueryPerformanceFrequency.2.QuadPart⟩⟩ := by
  rw [high_resolution_clock_now_of_success os hF hC]
  generalize os.QueryPerformanceCounter.2.QuadPart = c at hc hx ⊢
  generalize os.QueryPerformanceFrequency.2.QuadPart = f at hf ⊢
  rw [ticksOfCount_of_ne_zero c (ne_of_gt hf), doubleQuotient_exact hc hf hx]
  have hx0 : 0 ≤ c * 1000000000 := by omega
  have h1 : 0 ≤ c * 1000000000 / f := Int.ediv_nonneg hx0 (le_of_lt hf)
  have h2 : c * 1000000000 / f ≤ c * 1000000000 := Int.ediv_le_self f hx0
  rw [checked64_of_inInt64 (by unfold inInt64; omega)]
  rfl

/-- C5 (amended): for every counter value `c ≥ 0` and frequency `f > 0` with
`c * 1000000000 < 2^53`, both queries succeeding, the returned nanosecond tick count
equals the exact reference `floor (c * 1000000000 / f)`. -/
theorem high_resolution_clock_now_exact (os : OS)
    (hF : os.QueryPerformanceFrequency.1 = true) (hC : os.QueryPerformanceCounter.1 = true)
    (hc : 0 ≤ os.QueryPerformanceCounter.2.QuadPart)
    (hf : 0 < os.QueryPerformanceFrequency.2.QuadPart)
    (hx : os.QueryPerformanceCounter.2.QuadPart * 1000000000 < 2 ^ 53) :
    (high_resolution_clock.now os).map time_point.ticks =
      some (exactNanoseconds os.QueryPerformanceCounter.2.QuadPart
        os.QueryPerformanceFrequency.2.QuadPart) := by
  rw [high_resolution_clock_now_of_small os hF hC hc hf hx]
  rfl

theorem high_resolution_clock_now_exact_witness :
    (OS.ofCounter true true 9000000 3579545).QueryPerformanceFrequency.1 = true ∧
      (OS.ofCounter true true 9000000 3579545).QueryPerformanceCounter.1 = true ∧
      (high_resolution_clock.now (OS.ofCounter true true 9000000 3579545)).map
        time_point.ticks = some 2514286033 :=
  ⟨rfl, rfl, high_resolution_clock_now_exact (OS.ofCounter true true 9000000 3579545)
    rfl rfl (by decide) (by decide) (by decide)⟩

/-- C6 (as stated, refuted): at frequency 10000000 the counter values 0 and `2^60`, both
non-negative 64-bit values in increasing order, give a first result of 0 ticks and no
defined second result, the quotient `2^60 * 100` lying outside the signed 64-bit range;
hence no pair of tick counts with the second at least the first. -/
theorem monotone_counterexample :
    (0 : Int) < 10000000 ∧ (0 : Int) ≤ 0 ∧ (0 : Int) ≤ 1152921504606846976 ∧
      inInt64 1152921504606846976 ∧
      high_resolution_clock.now (OS.ofCounter true true 0 10000000) = some ⟨⟨0⟩⟩ ∧
      high_resolution_clock.now (OS.ofCounter true true 1152921504606846976 10000000)
        = none ∧
      ¬ ∃ t1 t2,
        high_resolution_clock.now (OS.ofCounter true true 0 10000000) = some t1 ∧
        high_resolution_clock.now (OS.ofCounter true true 1152921504606846976 10000000)
          = some t2 ∧
        t1.ticks ≤ t2.ticks := by
  have h1 := high_resolution_clock_now_of_success (OS.ofCounter true true 0 10000000)
    rfl rfl
  have h2 := high_resolution_clock_now_of_success
    (OS.ofCounter true true 1152921504606846976 10000000) rfl rfl
  have e1 : (OS.ofCounter true true 0 10000000).QueryPerformanceCounter.2.QuadPart = 0 :=
    QuadPart_ofQuad _
  have e2 : (OS.ofCounter true true 0 10000000).QueryPerformanceFrequency.2.QuadPart
      = 10000000 := QuadPart_ofQuad _
  have e3 : (OS.ofCounter true true 1152921504606846976
      10000000).QueryPerformanceCounter.2.QuadPart = 1152921504606846976 :=
    QuadPart_ofQuad _
  have e4 : (OS.ofCounter true true 1152921504606846976
      10000000).QueryPerformanceFrequency.2.QuadPart = 10000000 := QuadPart_ofQuad _
  rw [e1, e2, ticksOfCount_zero_count (by norm_num)] at h1
  rw [e3, e4] at h2
  have ht : high_resolution_clock.ticksOfCount 1152921504606846976 10000000 = none := by
    rw [ticksOfCount_of_ne_zero _ (by norm_num), doubleQuotient_overflow]
    have : truncToInt (115292150460684697600 : ℚ) = 115292150460684697600 := by
      simpa using truncToInt_intCast 115292150460684697600
    rw [this]
    decide
  rw [ht] at h2
  refine ⟨by norm_num, le_refl _, by norm_num, by decide, h1, h2, ?_⟩
  rintro ⟨t1, t2, -, h, -⟩
  rw [h2] at h
  exact absurd h (by simp)

/-- C6 (amended): for two successful acquisitions at the same positive frequency with
non-negative counter values `c1 ≤ c2`, whenever the second call returns a defined time
point, the first call returns a defined time point as well and its tick count is at
most that of the second. -/
theorem high_resolution_clock_now_monotone (os1 os2 : OS)
    (hF1 : os1.QueryPerformanceFrequency.1 = true)
    (hC1 : os1.QueryPerformanceCounter.1 = true)
    (hF2 : os2.QueryPerformanceFrequency.1 = true)
    (hC2 : os2.QueryPerformanceCounter.1 = true)
    (hsame : os1.QueryPerformanceFrequency.2.QuadPart
      = os2.QueryPerformanceFrequency.2.QuadPart)
    (hf : 0 < os1.QueryPerformanceFrequency.2.QuadPart)
    (hc1 : 0 ≤ os1.QueryPerformanceCounter.2.QuadPart)
    (hle : os1.QueryPerformanceCounter.2.QuadPart ≤ os2.QueryPerformanceCounter.2.QuadPart)
    (t2 : time_point ClockTag.high_resolution_clock 1000000000)
    (h2 : high_resolution_clock.now os2 = some t2) :
    ∃ t1, high_resolution_clock.now os1 = some t1 ∧ t1.ticks ≤ t2.ticks := by
  rw [high_resolution_clock_now_of_success os2 hF2 hC2, ← hsame] at h2
  rw [high_resolution_clock_now_of_success os1 hF1 hC1]
  generalize os1.QueryPerformanceFrequency.2.QuadPart = f at hf h2 ⊢
  generalize os1.QueryPerformanceCounter.2.QuadPart = c1 at hc1 hle ⊢
  generalize os2.QueryPerformanceCounter.2.QuadPart = c2 at hle h2
  rw [ticksOfCount_of_ne_zero _ (ne_of_gt hf)] at h2 ⊢
  have hmono := truncToInt_mono (doubleQuotient_mono hf hle)
  have h0 := truncToInt_nonneg (doubleQuotient_nonneg hc1 hf)
  generalize truncToInt (doubleQuotient c1 f) = n1 at hmono h0 ⊢
  generalize truncToInt (doubleQuotient c2 f) = n2 at hmono h2
  unfold checked64 at h2
  split_ifs at h2 with hin
  · simp only [Option.map_some', Option.some.injEq] at h2
    unfold inInt64 at hin
    rw [checked64_of_inInt64 (by unfold inInt64; omega)]
    refine ⟨⟨⟨n1⟩⟩, rfl, ?_⟩
    rw [← h2]
    exact hmono
  · simp at h2

theorem high_resolution_clock_now_monotone_witness :
    (0 : Int) < 10000000 ∧ (0 : Int) ≤ 1000 ∧ (1000 : Int) ≤ 2000 ∧
      high_resolution_clock.now (OS.ofCounter true true 2000 10000000)
        = some ⟨⟨200000⟩⟩ ∧
      ∃ t1, high_resolution_clock.now (OS.ofCounter true true 1000 10000000) = some t1 ∧
        t1.ticks ≤ (200000 : Int) :=
  ⟨by decide, by decide, by decide,
    high_resolution_clock_now_of_small (OS.ofCounter true true 2000 10000000) rfl rfl
      (by decide) (by decide) (by decide),
    high_resolution_clock_now_monotone (OS.ofCounter true true 1000 10000000)
      (OS.ofCounter true true 2000 10000000) rfl rfl rfl rfl (by decide) (by decide)
      (by decide) (by decide) ⟨⟨200000⟩⟩
      (high_resolution_clock_now_of_small (OS.ofCounter true true 2000 10000000) rfl rfl
        (by decide) (by decide) (by decide))⟩

/-! ## Totality of the two routines -/

/-- C7 (as stated, refuted): when both queries succeed and the frequency buffer holds 0,
the double quotient `1 * 1e9 / 0` is infinite and `high_resolution_clock::now` has no
defined result. -/
theorem totality_counterexample :
    (OS.ofCounter true true 1 0).QueryPerformanceFrequency.1 = true ∧
      (OS.ofCounter true true 1 0).QueryPerformanceCounter.1 = true ∧
      (OS.ofCounter true true 1 0).QueryPerformanceCounter.2.QuadPart = 1 ∧
      (OS.ofCounter true true 1 0).QueryPerformanceFrequency.2.QuadPart = 0 ∧
      Double.div (Double.mul (Double.ofInt 1) (Double.ofInt 1000000000)) (Double.ofInt 0)
        = Double.inf false ∧
      high_resolution_clock.now (OS.ofCounter true true 1 0) = none := by
  have e1 : (OS.ofCounter true true 1 0).QueryPerformanceCounter.2.QuadPart = 1 :=
    QuadPart_ofQuad _
  have e2 : (OS.ofCounter true true 1 0).QueryPerformanceFrequency.2.QuadPart = 0 :=
    QuadPart_ofQuad _
  have h := high_resolution_clock_now_of_success (OS.ofCounter true true 1 0) rfl rfl
  rw [e1, e2, ticksOfCount_zero_frequency] at h
  refine ⟨rfl, rfl, e1, e2, ?_, h⟩
  have h1 : roundDouble ((1 : ℤ) : ℚ) = 1 := by
    simpa using roundDouble_intCast 1 (by norm_num)
  have h2 : roundDouble ((1 : ℚ) * 1000000000) = 1000000000 := by
    simpa using roundDouble_billion
  unfold Double.ofInt
  rw [roundDouble_billion, h1]
  simp only [Double.mul, Double.div, h2, Int.cast_zero, roundDouble_zero, if_true]
  norm_num

/-- C7 (amended): `system_clock::now` returns a defined time point for every outcome of
its queries; `high_resolution_clock::now` returns a defined time point on every failure
path, and on the success path exactly when the frequency is nonzero and the truncated
double quotient lies in the signed 64-bit range, which is the case for every counter
`c ≥ 0` and frequency `f > 0` with `c * 1000000000 ≤ 2^62 * f`. -/
theorem clock_totality (os : OS) :
    (system_clock.now os).isSome = true ∧
      ((os.QueryPerformanceFrequency.1 = false ∨ os.QueryPerformanceCounter.1 = false) →
        (high_resolution_clock.now os).isSome = true) ∧
      (os.QueryPerformanceFrequency.1 = true → os.QueryPerformanceCounter.1 = true →
        ((high_resolution_clock.now os).isSome = true ↔
          os.QueryPerformanceFrequency.2.QuadPart ≠ 0 ∧
          inInt64 (truncToInt (doubleQuotient os.QueryPerformanceCounter.2.QuadPart
            os.QueryPerformanceFrequency.2.QuadPart)))) ∧
      (os.QueryPerformanceFrequency.1 = true → os.QueryPerformanceCounter.1 = true →
        0 ≤ os.QueryPerformanceCounter.2.QuadPart →
        0 < os.QueryPerformanceFrequency.2.QuadPart →
        os.QueryPerformanceCounter.2.QuadPart * 1000000000
          ≤ 2 ^ 62 * os.QueryPerformanceFrequency.2.QuadPart →
        (high_resolution_clock.now os).isSome = true) := by
  refine ⟨?_, ?_, ?_, ?_⟩
  · cases hok : (os.SystemTimeToFileTime os.GetSystemTime).1
    · unfold system_clock.now
      simp [hok]
    · rw [system_clock_now_of_success os hok,
        ticksOfQuad_eq _ (QuadPart_toLargeInteger_range _)]
      rfl
  · intro h
    unfold high_resolution_clock.now
    rcases h with h | h
    · simp [h]
    · cases hF : os.QueryPerformanceFrequency.1 <;> simp [h]
  · intro hF hC
    rw [high_resolution_clock_now_of_success os hF hC]
    generalize os.QueryPerformanceCounter.2.QuadPart = c
    generalize os.QueryPerformanceFrequency.2.QuadPart = f
    by_cases hf : f = 0
    · subst hf
      rw [ticksOfCount_zero_frequency]
      simp
    · rw [ticksOfCount_of_ne_zero c hf]
      unfold checked64
      split_ifs with hin
      · simp [hf, hin]
      · simp [hin]
  · intro hF hC hc hf hx
    rw [high_resolution_clock_now_of_success os hF hC]
    generalize os.QueryPerformanceCounter.2.QuadPart = c at hc hx ⊢
    generalize os.QueryPerformanceFrequency.2.QuadPart = f at hf hx ⊢
    rw [ticksOfCount_of_ne_zero c (ne_of_gt hf)]
    have h0 := doubleQuotient_nonneg hc hf
    have h1 := doubleQuotient_lt_of_le hc hf hx
    have hn : 0 ≤ truncToInt (doubleQuotient c f) := truncToInt_nonneg h0
    have hlt : truncToInt (doubleQuotient c f) < 2 ^ 63 := by
      rw [truncToInt_of_nonneg h0, Int.floor_lt]
      push_cast
      exact h1
    rw [checked64_of_inInt64 (by unfold inInt64; omega)]
    rfl

theorem clock_totality_witness :
    (0 : Int) ≤ 864000000000 ∧ (0 : Int) < 10000000 ∧
      (864000000000 : Int) * 1000000000 ≤ 2 ^ 62 * 10000000 ∧
      (high_resolution_clock.now (OS.ofCounter true true 864000000000 10000000)).isSome
        = true :=
  ⟨by decide, by decide, by decide,
    (clock_totality (OS.ofCounter true true 864000000000 10000000)).2.2.2 rfl rfl
      (by decide) (by decide) (by decide)⟩

end CPP11
